import Mathlib

/-!
# mark: the live-reload browser layer and the command-line reader

A shallow embedding of `cmd/mark/browser.go` and `cmd/mark/main.go`.

* A Go `string` / `[]byte` is a byte sequence: `Bytes := List Nat`.
  Literals of the source are ASCII and are written with `ascii`.
* Identifiers handled only by equality with a literal (URL path, request
  method, header names and values) are Lean strings.
* Effects are explicit: every handler takes the state of the process and
  returns the new one.  The render function `parseFunc` may give a new
  result on every call, so it is indexed by the number of earlier calls,
  and the state counts the calls.
* `time.Time` and `time.Duration` are integers counting nanoseconds.
-/

namespace Mark

/-! ## Basic data -/

/-- A Go string or byte slice. -/
abbrev Bytes := List Nat

/-- Bytes of an ASCII literal of the source. -/
def ascii (s : String) : Bytes := s.data.map Char.toNat

/-- Nanoseconds, as in `time.Duration` (and `time.Time` as an offset). -/
abbrev Time := Int

/-- The constant `time.Second`. -/
def Second : Time := 1000000000

/-- `writeWait = 10 * time.Second`. -/
def writeWait : Time := 10 * Second

/-- `pongWait = 60 * time.Second`. -/
def pongWait : Time := 60 * Second

/-- `pingPeriod = (pongWait * 9) / 10`. -/
def pingPeriod : Time := (pongWait * 9) / 10

/-- A channel `chan []byte`, identified by the order of its `make`. -/
abbrev Chan := Nat

/-- A websocket connection `*websocket.Conn`, identified by a number. -/
abbrev Conn := Nat

/-! ## `html/template` in the text context -/

/-- The table `htmlReplacementTable` of `html/template`: the replacement of a
byte in element text, `none` where the table has no entry. -/
def htmlReplacementTable (c : Nat) : Option Bytes :=
  if c = 0 then some [0xEF, 0xBF, 0xBD]
  else if c = 34 then some (ascii "&#34;")
  else if c = 38 then some (ascii "&amp;")
  else if c = 39 then some (ascii "&#39;")
  else if c = 43 then some (ascii "&#43;")
  else if c = 60 then some (ascii "&lt;")
  else if c = 62 then some (ascii "&gt;")
  else none

/-- The escaper `htmlEscaper` that `html/template` inserts for an action in
element text (`{{.Data}}` inside `<pre>`), on a value of type `string`.
Every table entry is an ASCII byte, and neither a multi-byte rune nor an
invalid byte is below the table length, so the escaper acts byte by byte. -/
def htmlEscaper : Bytes → Bytes
  | [] => []
  | c :: cs =>
    (match htmlReplacementTable c with
     | some r => r
     | none => [c]) ++ htmlEscaper cs

/-- Template text before `{{.Data}}`. -/
def pageText1 : Bytes := ascii
  "<!DOCTYPE html>\n\t<html lang=\"en\">\n\t\t<head>\n\t\t\t<title>WebSocket Example</title>\n\t\t</head>\n\t\t<body>\n\t\t\t<pre id=\"fileData\">"

/-- Template text between `{{.Data}}` and `{{.Port}}`. -/
def pageText2 : Bytes := ascii
  "</pre>\n\t\t\t<script type=\"text/javascript\">\n\t\t\t\t(function() \x7b\n\t\t\t\t\tvar data = document.getElementById(\"fileData\");\n\t\t\t\t\tvar conn = new WebSocket(\"ws://localhost:"

/-- Template text after `{{.Port}}`. -/
def pageText3 : Bytes := ascii
  "/ws\");\n\t\t\t\t\tconn.onclose = function(evt) \x7b\n\t\t\t\t\t\tdata.textContent = 'Connection closed';\n\t\t\t\t\t\x7d\n\t\t\t\t\tconn.onmessage = function(evt) \x7b\n\t\t\t\t\t\tconsole.log('file updated');\n\t\t\t\t\t\tdata.textContent = evt.data;\n\t\t\t\t\t\x7d\n\t\t\t\t\x7d)();\n\t\t\t</script>\n\t\t</body>\n\t</html>\n\t"

/-- Output of `page.Execute` on `struct{Data, Port string}`.  `{{.Data}}` is
in element text and goes through `htmlEscaper`; `{{.Port}}` is inside a
double-quoted JavaScript string and goes through the escaper of that context,
`jsStrEscaper`, taken as a parameter. -/
def pageExecute (jsStrEscaper : Bytes → Bytes) (data port : Bytes) : Bytes :=
  pageText1 ++ htmlEscaper data ++ pageText2 ++ jsStrEscaper port ++ pageText3

/-! ## `net/http` -/

/-- What a handler has written to its `http.ResponseWriter`. -/
structure ResponseWriter where
  header : List (String × String)
  status : Option Nat
  body : Bytes
deriving DecidableEq, Repr

/-- A fresh response writer. -/
def ResponseWriter.new : ResponseWriter := ⟨[], none, []⟩

/-- `w.Header().Set(k, v)`. -/
def ResponseWriter.headerSet (w : ResponseWriter) (k v : String) : ResponseWriter :=
  { w with header := (w.header.filter fun p => p.1 != k) ++ [(k, v)] }

/-- `w.Header().Del(k)`. -/
def ResponseWriter.headerDel (w : ResponseWriter) (k : String) : ResponseWriter :=
  { w with header := w.header.filter fun p => p.1 != k }

/-- `w.Header().Get(k)`. -/
def ResponseWriter.headerGet (w : ResponseWriter) (k : String) : Option String :=
  (w.header.find? fun p => p.1 == k).map Prod.snd

/-- `w.WriteHeader(code)`: only the first call counts. -/
def ResponseWriter.writeHeader (w : ResponseWriter) (code : Nat) : ResponseWriter :=
  match w.status with
  | some _ => w
  | none => { w with status := some code }

/-- `w.Write(p)`: the first write sends status 200 if none was sent. -/
def ResponseWriter.write (w : ResponseWriter) (p : Bytes) : ResponseWriter :=
  let w1 := w.writeHeader 200
  { w1 with body := w1.body ++ p }

/-- `http.Error(w, error, code)`. -/
def httpError (w : ResponseWriter) (error : String) (code : Nat) : ResponseWriter :=
  let w1 := w.headerDel "Content-Length"
  let w2 := w1.headerSet "Content-Type" "text/plain; charset=utf-8"
  let w3 := w2.headerSet "X-Content-Type-Options" "nosniff"
  let w4 := w3.writeHeader code
  w4.write (ascii error ++ [10])

/-- The fields of `*http.Request` that `page` reads. -/
structure Request where
  path : String
  method : String
deriving DecidableEq, Repr

/-! ## The process state -/

/-- A goroutine started with `go` and its captured operands. -/
inductive Goroutine where
  /-- The literal `go func() { fmt.Println("new change"); l <- buf }()` of
  `watch`: the closure refers to the variable `l` (a storage cell) and to
  `buf`, a variable declared afresh for each event and never assigned again. -/
  | deliver (l : Nat) (buf : Bytes)
  /-- The statement `go b.write(ws, l)` of `ws`: the arguments are evaluated
  by the `go` statement. -/
  | write (ws : Conn) (l : Chan)
deriving DecidableEq, Repr

/-- The struct `browser` (the embedded `sync.RWMutex` guards `listeners`;
every handler below runs its critical section in one step). -/
structure browser where
  port : Bytes
  file : String
  parseFunc : Nat → Bytes
  listeners : List Chan

/-- The browser together with the rest of the process that the handlers
touch. -/
structure State where
  b : browser
  /-- Number of calls of `b.parseFunc` so far. -/
  parseCalls : Nat
  /-- Number of channels made so far. -/
  chans : Nat
  /-- Storage cells of the instances of the loop variable `l` of `watch`
  (`none` is the nil channel). -/
  vars : List (Option Chan)
  /-- Goroutines started and not yet run. -/
  goroutines : List Goroutine
  /-- Channel sends `l <- buf` begun by delivery goroutines. -/
  sends : List (Chan × Bytes)
  /-- Lines printed with `fmt.Println`. -/
  stdout : List String
  /-- Lines printed with `log.Println`. -/
  log : List String
  /-- Connections whose handler runs `b.read`. -/
  reading : List Conn
  /-- Connections closed with `ws.Close()`. -/
  closed : List Conn

/-- A call `b.parseFunc()`. -/
def State.callParseFunc (s : State) : Bytes × State :=
  (s.b.parseFunc s.parseCalls, { s with parseCalls := s.parseCalls + 1 })

/-! ## `browser.page` -/

/-- The handler `browser.page`. -/
def page (jsStrEscaper : Bytes → Bytes) (s : State) (w : ResponseWriter) (r : Request) :
    State × ResponseWriter :=
  if r.path ≠ "/" then
    (s, httpError w "Not found" 404)
  else if r.method ≠ "GET" then
    (s, httpError w "Method not allowed" 405)
  else
    let w1 := w.headerSet "Content-Type" "text/html; charset=utf-8"
    let (data, s1) := s.callParseFunc
    (s1, w1.write (pageExecute jsStrEscaper data s.b.port))

/-- The status a response to `(path, method)` has according to the page
contract: 404 off the root path, 405 for a method other than `GET`. -/
def pageStatus (path method : String) : Nat :=
  if path = "/" then (if method = "GET" then 200 else 405) else 404

/-- A browser on port 8080 whose render function always returns
`<h1>A</h1>` (Scenario A), in a process that has done nothing yet. -/
def scenarioA : State :=
  { b := { port := ascii "8080", file := "a.md",
           parseFunc := fun _ => ascii "<h1>A</h1>", listeners := [] },
    parseCalls := 0, chans := 0, vars := [], goroutines := [], sends := [],
    stdout := [], log := [], reading := [], closed := [] }

/-- Whether `p` occurs in `t` as a contiguous block. -/
def occursIn (p : Bytes) : Bytes → Bool
  | [] => p.isEmpty
  | c :: cs => p.isPrefixOf (c :: cs) || occursIn p cs

/-! ## `browser.watch` -/

namespace fsnotify

/-- `fsnotify.Create`. -/
def Create : Nat := 1
/-- `fsnotify.Write`. -/
def Write : Nat := 2
/-- `fsnotify.Remove`. -/
def Remove : Nat := 4
/-- `fsnotify.Rename`. -/
def Rename : Nat := 8
/-- `fsnotify.Chmod`. -/
def Chmod : Nat := 16

/-- `fsnotify.Event`. -/
structure Event where
  Name : String
  Op : Nat
deriving DecidableEq, Repr

end fsnotify

/-- Which variable a `for ... := range` clause declares: one for the whole
loop, assigned on each iteration (Go before 1.22, the language this code was
written in), or a new one on each iteration (Go 1.22 and later, for a module
that asks for it). -/
inductive LoopVar where
  | perLoop
  | perIteration
deriving DecidableEq, Repr

/-- Declaration of a variable of type `chan []byte`: a new storage cell
holding the zero value `nil`. -/
def State.declareVar (s : State) : Nat × State :=
  (s.vars.length, { s with vars := s.vars ++ [none] })

/-- Assignment `l = v` to the variable in cell `cell`. -/
def State.setVar (s : State) (cell : Nat) (v : Chan) : State :=
  { s with vars := s.vars.set cell (some v) }

/-- A `go` statement. -/
def State.go (s : State) (g : Goroutine) : State :=
  { s with goroutines := s.goroutines ++ [g] }

/-- The loop `for _, l := range b.listeners { go func() {...}() }` of
`watch` with one variable `l` for the whole loop, in cell `cell`. -/
def rangeShared (buf : Bytes) (cell : Nat) : List Chan → State → State
  | [], s => s
  | l :: ls, s => rangeShared buf cell ls ((s.setVar cell l).go (.deliver cell buf))

/-- The same loop with a new variable `l` on each iteration. -/
def rangeFresh (buf : Bytes) : List Chan → State → State
  | [], s => s
  | l :: ls, s =>
    let (cell, s1) := s.declareVar
    rangeFresh buf ls ((s1.setVar cell l).go (.deliver cell buf))

/-- One round of the `for`/`select` loop of `browser.watch`, on the event
received from `watcher.Events`. -/
def watchEvent (sem : LoopVar) (s : State) (event : fsnotify.Event) : State :=
  if event.Op &&& fsnotify.Write ≠ fsnotify.Write then
    s
  else
    let (str, s1) := s.callParseFunc
    let buf : Bytes := str
    match sem with
    | .perLoop =>
      let (cell, s2) := s1.declareVar
      rangeShared buf cell s2.b.listeners s2
    | .perIteration => rangeFresh buf s1.b.listeners s1

/-- The loop of `browser.watch`, entered once the watcher is set up, over the
events received so far. -/
def watch (sem : LoopVar) (s : State) (events : List fsnotify.Event) : State :=
  events.foldl (watchEvent sem) s

/-- The channel that a goroutine sends to if it runs in state `s`: a
delivery goroutine evaluates its variable `l` when it reaches `l <- buf`. -/
def State.target (s : State) : Goroutine → Option Chan
  | .deliver cell _ => (s.vars.get? cell).join
  | .write _ _ => none

/-- The `k`-th pending goroutine runs: a delivery goroutine prints
`new change` and begins the send `l <- buf` (on a nil channel it blocks for
ever); the write loop of a session is the function `write` below. -/
def State.runGoroutine (s : State) (k : Nat) : State :=
  match s.goroutines.get? k with
  | some (.deliver cell buf) =>
    let s1 := { s with goroutines := s.goroutines.eraseIdx k,
                       stdout := s.stdout ++ ["new change"] }
    match s.target (.deliver cell buf) with
    | some l => { s1 with sends := s1.sends ++ [(l, buf)] }
    | none => s1
  | _ => s

/-- The pending goroutines at the positions `ks` run one after the other. -/
def State.runList (s : State) (ks : List Nat) : State :=
  ks.foldl State.runGoroutine s

/-- The ORs of the subsets of Create, Remove, Rename, Chmod. -/
def nonWriteOps : List Nat :=
  ([fsnotify.Create, fsnotify.Remove, fsnotify.Rename, fsnotify.Chmod].sublists).map
    fun l => l.foldl (· ||| ·) 0

/-! ## `browser.ws` -/

/-- Result of `upgrader.Upgrade(w, r, nil)`. -/
inductive Upgrade where
  | ok (ws : Conn)
  | handshakeError (msg : String)
  | otherError (msg : String)
deriving DecidableEq, Repr

/-- The handler `browser.ws`, up to its last statement `b.read(ws)`, which
runs the read loop of the session on the handler's goroutine. -/
def ws (s : State) (up : Upgrade) : State :=
  match up with
  | .handshakeError _ => s
  | .otherError msg => { s with log := s.log ++ [msg] }
  | .ok conn =>
    let l : Chan := s.chans
    let s1 := { s with chans := s.chans + 1 }
    let s2 := { s1 with b := { s1.b with listeners := s1.b.listeners ++ [l] } }
    let s3 := s2.go (.write conn l)
    { s3 with reading := s3.reading ++ [conn] }

/-! ## `browser.read` -/

/-- What the connection delivers to a pending `ws.ReadMessage()`, with the
time at which it happens: a pong frame (the pong handler runs and the read
goes on), a data message (the call returns without error) or a failure
(peer closed, protocol error, frame above the read limit). -/
inductive Incoming where
  | pong (t : Time)
  | message (t : Time)
  | failure (t : Time)
deriving DecidableEq, Repr

/-- Time of an incoming item. -/
def Incoming.time : Incoming → Time
  | .pong t => t
  | .message t => t
  | .failure t => t

/-- The read side of a connection as `read` sets it. -/
structure ReadSide where
  readLimit : Nat
  readDeadline : Time
  /-- The loop has been left and the deferred `ws.Close()` has run. -/
  closed : Bool
deriving DecidableEq, Repr

/-- The loop `for { if _, _, err := ws.ReadMessage(); err != nil { break } }`
with the pong handler installed by `read`, observed up to time `untilT`.  A
pending read fails once the read deadline has passed: an item that comes
after the deadline finds the loop already left, and so does the end of the
observation. -/
def readLoop (untilT : Time) (c : ReadSide) : List Incoming → ReadSide
  | [] => if c.readDeadline < untilT then { c with closed := true } else c
  | e :: es =>
    if c.readDeadline < e.time then { c with closed := true }
    else
      match e with
      | .pong t => readLoop untilT { c with readDeadline := t + pongWait } es
      | .message _ => readLoop untilT c es
      | .failure _ => { c with closed := true }

/-- The method `browser.read`, entered at time `now`, on the items that the
connection delivers up to time `untilT`.  The line `// unregister.` of the
source is a comment: no statement follows it. -/
def read (s : State) (ws : Conn) (now untilT : Time) (events : List Incoming) :
    State × ReadSide :=
  let c := readLoop untilT
    { readLimit := 512, readDeadline := now + pongWait, closed := false } events
  if c.closed then ({ s with closed := s.closed ++ [ws] }, c) else (s, c)

/-- Time of the last pong among `events`, or `start` if there is none. -/
def lastPong (start : Time) : List Incoming → Time
  | [] => start
  | .pong t :: es => lastPong t es
  | _ :: es => lastPong start es

/-! ## `browser.write` -/

namespace websocket

/-- `websocket.TextMessage`. -/
def TextMessage : Nat := 1
/-- `websocket.PingMessage`. -/
def PingMessage : Nat := 9

end websocket

/-- The case of the `select` in `write` that is taken. -/
inductive Selected where
  /-- `case buf := <-ch`. -/
  | payload (buf : Bytes)
  /-- `case <-pingTicker.C`. -/
  | tick
deriving DecidableEq, Repr

/-- One round of the loop of `write`: the case selected, the value of
`time.Now()` in it, and whether `ws.WriteMessage` returns an error. -/
structure WriteEvent where
  sel : Selected
  now : Time
  err : Bool
deriving DecidableEq, Repr

/-- The calls that `write` makes. -/
inductive ConnOp where
  | newTicker (d : Time)
  | setWriteDeadline (t : Time)
  | writeMessage (messageType : Nat) (data : Bytes)
  | close
  | tickerStop
deriving DecidableEq, Repr

/-- The `for`/`select` loop of `write` with its deferred calls. -/
def writeLoop : List WriteEvent → List ConnOp
  | [] => []
  | e :: es =>
    match e.sel with
    | .payload buf =>
      [.setWriteDeadline (e.now + writeWait), .writeMessage websocket.TextMessage buf]
        ++ (if e.err then [.close, .tickerStop] else writeLoop es)
    | .tick =>
      [.setWriteDeadline (e.now + writeWait), .writeMessage websocket.PingMessage []]
        ++ (if e.err then [.close, .tickerStop] else writeLoop es)

/-- The method `browser.write` on the rounds of its loop (a payload round
carries the value received from the channel `ch` of the session): the calls
made, in order, and the state of the process. -/
def write (s : State) (ws : Conn) (events : List WriteEvent) : State × List ConnOp :=
  let ops := ConnOp.newTicker pingPeriod :: writeLoop events
  if ConnOp.close ∈ ops then ({ s with closed := s.closed ++ [ws] }, ops) else (s, ops)

/-- The two calls of one send: the frame of the selected case under a write
deadline of ten seconds from now. -/
def sendOps (e : WriteEvent) : List ConnOp :=
  [.setWriteDeadline (e.now + 10 * Second),
   match e.sel with
   | .payload buf => .writeMessage websocket.TextMessage buf
   | .tick => .writeMessage websocket.PingMessage []]

/-! ## The process as a transition system -/

/-- A step of the process. -/
inductive Step where
  /-- A request on `/ws` with the result of its upgrade. -/
  | upgrade (up : Upgrade)
  /-- The read loop of the session on `ws` runs on `events`. -/
  | read (ws : Conn) (now untilT : Time) (events : List Incoming)
  /-- The write loop of the session on `ws` runs on `events`. -/
  | write (ws : Conn) (events : List WriteEvent)
  /-- The watcher receives `event`. -/
  | fileEvent (event : fsnotify.Event)
  /-- The `k`-th pending goroutine runs. -/
  | run (k : Nat)

/-- The effect of a step. -/
def step (sem : LoopVar) (s : State) : Step → State
  | .upgrade up => ws s up
  | .read c now untilT events => (read s c now untilT events).1
  | .write c events => (write s c events).1
  | .fileEvent event => watchEvent sem s event
  | .run k => s.runGoroutine k

/-- A run of the process. -/
def run (sem : LoopVar) (s : State) (steps : List Step) : State :=
  steps.foldl (step sem) s

/-- A session that answers the probes: entered at time 0, pongs at 54 s and
108 s, observed up to 150 s. -/
def answeredProbes : List Incoming := [.pong (54 * Second), .pong (108 * Second)]

/-- A session is opened on connection 7, its read loop meets a read error
and returns, then the watched file is written and the delivery goroutine
started for the event runs. -/
def closedSessionRun : List Step :=
  [.upgrade (.ok 7), .read 7 0 5 [.failure 5], .fileEvent ⟨"a.md", fsnotify.Write⟩, .run 1]

/-- Scenario C: two sessions, on connections 0 and 1, have been opened in
Scenario A. -/
def scenarioC : State := ws (ws scenarioA (.ok 0)) (.ok 1)

/-- A write event on the watched file. -/
def writeEvent : fsnotify.Event := ⟨"a.md", fsnotify.Write⟩

/-! ## `main`: selection of the input -/

/-- The flags and arguments after `flag.Parse()`. -/
structure Flags where
  /-- Value of `-i`. -/
  input : String
  /-- Value of `-o`. -/
  output : String
  smarty : Bool
  fractions : Bool
  ansiconsole : Bool
  /-- The positional arguments, `flag.Args()`. -/
  args : List String
deriving DecidableEq, Repr

/-- What `main` reads its input from, or the message of `usageAndExit`. -/
inductive Source where
  | file (name : String)
  | stdin
  | usageAndExit (msg : String)
deriving DecidableEq, Repr

/-- The constant `os.ModeCharDevice`. -/
def ModeCharDevice : Nat := 2 ^ 21

/-- The part of `main` under `// read`: `canOpen` tells whether `os.Open`
succeeds on a name, `stdinMode` is the mode that `os.Stdin.Stat()` reports,
`none` if it fails. -/
def openInput (f : Flags) (canOpen : String → Bool) (stdinMode : Option Nat) : Source :=
  if f.input ≠ "" then
    if canOpen f.input then .file f.input
    else .usageAndExit ("Error to open file input: " ++ f.input ++ ".")
  else
    match stdinMode with
    | none => .usageAndExit ""
    | some mode =>
      if mode &&& ModeCharDevice ≠ 0 then .usageAndExit "" else .stdin

/-- Input selection as the usage text words it: the file named by `-i`,
otherwise the last argument, and stdin if no input file is given. -/
def usageInput (f : Flags) : Source :=
  if f.input ≠ "" then .file f.input
  else
    match f.args.getLast? with
    | some a => .file a
    | none => .stdin

/-- The command line `mark README.md`, after `flag.Parse()`. -/
def markReadme : Flags :=
  { input := "", output := "", smarty := false, fractions := false, ansiconsole := false,
    args := ["README.md"] }

/-! ## `main`: collection of the input -/

/-- The error of a read. -/
inductive ReadErr where
  | EOF
  | other
deriving DecidableEq, Repr

/-- A `bufio.Reader` over a finite input: the bytes not yet read, and whether
the source reports an error other than `io.EOF` when they are used up. -/
structure Reader where
  buf : Bytes
  failing : Bool
deriving DecidableEq, Repr

/-- Split after the first occurrence of `delim`, if there is one. -/
def splitDelim (delim : Nat) : Bytes → Option (Bytes × Bytes)
  | [] => none
  | c :: cs =>
    if c = delim then some ([c], cs)
    else (splitDelim delim cs).map fun lr => (c :: lr.1, lr.2)

/-- The method `(*bufio.Reader).ReadString`: the bytes up to and including
the first `delim`; without a `delim`, the bytes read before the error and
the error. -/
def Reader.ReadString (r : Reader) (delim : Nat) : Bytes × Reader × Option ReadErr :=
  match splitDelim delim r.buf with
  | some (line, rest) => (line, { r with buf := rest }, none)
  | none => (r.buf, { r with buf := [] }, some (if r.failing then .other else .EOF))

/-- The loop of `main` under `// collect data`, for at most `fuel` rounds:
the collected `data`, or the message of `usageAndExit`. -/
def collect : Nat → Reader → Bytes → Option (Except String Bytes)
  | 0, _, _ => none
  | fuel + 1, reader, data =>
    match reader.ReadString 10 with
    | (line, reader1, none) => collect fuel reader1 (data ++ line)
    | (_, _, some .EOF) => some (.ok data)
    | (_, _, some .other) => some (.error "failed to reading input.")

end Mark

/-! # Theorems -/

set_option maxRecDepth 100000

namespace Mark

/-! ## C1, C2: the page handler -/

theorem httpError_status (w : ResponseWriter) (h : w.status = none) (e : String) (code : Nat) :
    (httpError w e code).status = some code := by
  simp [httpError, ResponseWriter.write, ResponseWriter.writeHeader,
    ResponseWriter.headerSet, ResponseWriter.headerDel, h]

/-- C1: the status written by `page` depends on path and method only: 404 off
the root path, 405 on the root path for a method other than GET, 200 exactly
for GET on the root path; with 404 and 405 the render function is not
called (with 200 it is called once). -/
theorem page_status (jsStrEscaper : Bytes → Bytes) (s : State) (r : Request) :
    (page jsStrEscaper s ResponseWriter.new r).2.status = some (pageStatus r.path r.method)
    ∧ (r.path ≠ "/" → (page jsStrEscaper s ResponseWriter.new r).2.status = some 404
        ∧ (page jsStrEscaper s ResponseWriter.new r).1.parseCalls = s.parseCalls)
    ∧ (r.path = "/" → r.method ≠ "GET" →
        (page jsStrEscaper s ResponseWriter.new r).2.status = some 405
        ∧ (page jsStrEscaper s ResponseWriter.new r).1.parseCalls = s.parseCalls)
    ∧ ((page jsStrEscaper s ResponseWriter.new r).2.status = some 200
        ↔ r.path = "/" ∧ r.method = "GET")
    ∧ (r.path = "/" → r.method = "GET" →
        (page jsStrEscaper s ResponseWriter.new r).1.parseCalls = s.parseCalls + 1) := by
  by_cases hp : r.path = "/"
  · by_cases hm : r.method = "GET"
    · simp [page, pageStatus, hp, hm, State.callParseFunc, ResponseWriter.write,
        ResponseWriter.writeHeader, ResponseWriter.headerSet, ResponseWriter.new]
    · simp [page, pageStatus, hp, hm, httpError_status, ResponseWriter.new]
  · simp [page, pageStatus, hp, httpError_status, ResponseWriter.new]

theorem occursIn_iff (p t : Bytes) : occursIn p t = true ↔ p <:+: t := by
  induction t with
  | nil => cases p <;> simp [occursIn]
  | cons c cs ih =>
    rw [occursIn, Bool.or_eq_true, ih, List.infix_cons_iff, List.isPrefixOf_iff_prefix]

theorem htmlEscaper_eq_self (data : Bytes) (h : ∀ c ∈ data, htmlReplacementTable c = none) :
    htmlEscaper data = data := by
  induction data with
  | nil => rfl
  | cons c cs ih =>
    have hc := h c (List.mem_cons_self _ _)
    have hcs := ih fun d hd => h d (List.mem_cons_of_mem _ hd)
    simp [htmlEscaper, hc, hcs]

theorem pageExecute_infix (jsStrEscaper : Bytes → Bytes) (data port : Bytes) :
    htmlEscaper data <:+: pageExecute jsStrEscaper data port := by
  refine ⟨pageText1, pageText2 ++ jsStrEscaper port ++ pageText3, ?_⟩
  simp [pageExecute, List.append_assoc]

/-- C2 fails as stated: with render output `<h1>A</h1>` the body written for
`GET /` does not contain the bytes `<h1>A</h1>`. -/
theorem page_body_lacks_raw_render :
    ¬ (ascii "<h1>A</h1>" <:+:
        (page (fun p => p) scenarioA ResponseWriter.new ⟨"/", "GET"⟩).2.body) := by
  rw [← occursIn_iff]
  decide

/-- C2 (amended): for `GET /` the body contains the render output after
HTML escaping (`htmlEscaper`) as a contiguous block, hence the render output
itself when none of its bytes has an entry in the escaping table; the
`Content-Type` header is `text/html; charset=utf-8` and the status is 200. -/
theorem page_body_embeds_escaped_render (jsStrEscaper : Bytes → Bytes) (s : State)
    (r : Request) (hp : r.path = "/") (hm : r.method = "GET") :
    htmlEscaper (s.b.parseFunc s.parseCalls)
        <:+: (page jsStrEscaper s ResponseWriter.new r).2.body
    ∧ ((∀ c ∈ s.b.parseFunc s.parseCalls, htmlReplacementTable c = none) →
        s.b.parseFunc s.parseCalls <:+: (page jsStrEscaper s ResponseWriter.new r).2.body)
    ∧ (page jsStrEscaper s ResponseWriter.new r).2.headerGet "Content-Type"
        = some "text/html; charset=utf-8"
    ∧ (page jsStrEscaper s ResponseWriter.new r).2.status = some 200 := by
  have hbody : (page jsStrEscaper s ResponseWriter.new r).2.body
      = pageExecute jsStrEscaper (s.b.parseFunc s.parseCalls) s.b.port := by
    simp [page, hp, hm, State.callParseFunc, ResponseWriter.write,
      ResponseWriter.writeHeader, ResponseWriter.headerSet, ResponseWriter.new]
  refine ⟨?_, ?_, ?_, ?_⟩
  · rw [hbody]; exact pageExecute_infix _ _ _
  · intro h
    rw [hbody]
    have := pageExecute_infix jsStrEscaper (s.b.parseFunc s.parseCalls) s.b.port
    rwa [htmlEscaper_eq_self _ h] at this
  · simp [page, hp, hm, State.callParseFunc, ResponseWriter.write,
      ResponseWriter.writeHeader, ResponseWriter.headerSet, ResponseWriter.new,
      ResponseWriter.headerGet]
  · simp [page, hp, hm, State.callParseFunc, ResponseWriter.write,
      ResponseWriter.writeHeader, ResponseWriter.headerSet, ResponseWriter.new]

/-- Witness of C2 (amended) in Scenario A: the body contains the escaped
form `&lt;h1&gt;A&lt;/h1&gt;`. -/
theorem page_body_embeds_escaped_render_witness :
    ascii "&lt;h1&gt;A&lt;/h1&gt;"
      <:+: (page (fun p => p) scenarioA ResponseWriter.new ⟨"/", "GET"⟩).2.body :=
  (page_body_embeds_escaped_render (fun p => p) scenarioA ⟨"/", "GET"⟩ rfl rfl).1

/-- Witness of C1: `POST /`, `GET /missing` and `GET /` in Scenario A. -/
theorem page_status_witness :
    (page (fun p => p) scenarioA ResponseWriter.new ⟨"/", "POST"⟩).2.status = some 405
    ∧ (page (fun p => p) scenarioA ResponseWriter.new ⟨"/missing", "GET"⟩).2.status = some 404
    ∧ (page (fun p => p) scenarioA ResponseWriter.new ⟨"/", "GET"⟩).2.status = some 200 :=
  ⟨((page_status (fun p => p) scenarioA ⟨"/", "POST"⟩).2.2.1 rfl (by decide)).1,
   ((page_status (fun p => p) scenarioA ⟨"/missing", "GET"⟩).2.1 (by decide)).1,
   (page_status (fun p => p) scenarioA ⟨"/", "GET"⟩).2.2.2.1.mpr ⟨rfl, rfl⟩⟩

/-! ## C3, C4: the file watcher -/

theorem rangeShared_spec (buf : Bytes) (cell : Nat) (L : List Chan) (s : State) :
    (rangeShared buf cell L s).b = s.b
    ∧ (rangeShared buf cell L s).parseCalls = s.parseCalls
    ∧ (rangeShared buf cell L s).chans = s.chans
    ∧ (rangeShared buf cell L s).sends = s.sends
    ∧ (rangeShared buf cell L s).goroutines
        = s.goroutines ++ L.map (fun _ => Goroutine.deliver cell buf)
    ∧ (rangeShared buf cell L s).vars
        = (match L.getLast? with
           | some l => s.vars.set cell (some l)
           | none => s.vars) := by
  induction L generalizing s with
  | nil => simp [rangeShared]
  | cons l ls ih =>
    obtain ⟨h1, h2, h3, h4, h5, h6⟩ := ih ((s.setVar cell l).go (.deliver cell buf))
    refine ⟨?_, ?_, ?_, ?_, ?_, ?_⟩
    · rw [rangeShared, h1]; rfl
    · rw [rangeShared, h2]; rfl
    · rw [rangeShared, h3]; rfl
    · rw [rangeShared, h4]; rfl
    · rw [rangeShared, h5]; simp [State.go, State.setVar]
    · rw [rangeShared, h6]
      cases ls with
      | nil => simp [State.go, State.setVar]
      | cons m ms =>
        rw [List.getLast?_cons_cons]
        cases hl : (m :: ms).getLast? with
        | none => simp at hl
        | some x => simp [State.go, State.setVar, List.set_set]

theorem rangeFresh_spec (buf : Bytes) (L : List Chan) (s : State) :
    (rangeFresh buf L s).b = s.b
    ∧ (rangeFresh buf L s).parseCalls = s.parseCalls
    ∧ (rangeFresh buf L s).chans = s.chans
    ∧ (rangeFresh buf L s).sends = s.sends
    ∧ (rangeFresh buf L s).goroutines
        = s.goroutines
          ++ (List.range L.length).map (fun i => Goroutine.deliver (s.vars.length + i) buf)
    ∧ (rangeFresh buf L s).vars = s.vars ++ L.map some := by
  induction L generalizing s with
  | nil => simp [rangeFresh]
  | cons l ls ih =>
    obtain ⟨h1, h2, h3, h4, h5, h6⟩ :=
      ih (((s.declareVar).2.setVar (s.declareVar).1 l).go (.deliver (s.declareVar).1 buf))
    refine ⟨?_, ?_, ?_, ?_, ?_, ?_⟩
    · rw [rangeFresh, h1]; rfl
    · rw [rangeFresh, h2]; rfl
    · rw [rangeFresh, h3]; rfl
    · rw [rangeFresh, h4]; rfl
    · rw [rangeFresh, h5]
      simp [State.go, State.setVar, State.declareVar, List.range_succ_eq_map,
        Nat.add_assoc, Nat.add_comm 1]
    · rw [rangeFresh, h6]
      simp [State.go, State.setVar, State.declareVar]

theorem lor_write_land_write (op : Nat) :
    (op ||| fsnotify.Write) &&& fsnotify.Write = fsnotify.Write := by
  apply Nat.eq_of_testBit_eq
  intro i
  simp only [Nat.testBit_land, Nat.testBit_lor]
  cases Nat.testBit fsnotify.Write i <;> simp

theorem watchEvent_write_spec (sem : LoopVar) (s : State) (event : fsnotify.Event)
    (h : event.Op &&& fsnotify.Write = fsnotify.Write) :
    (watchEvent sem s event).b = s.b
    ∧ (watchEvent sem s event).parseCalls = s.parseCalls + 1
    ∧ (watchEvent sem s event).chans = s.chans
    ∧ (watchEvent sem s event).sends = s.sends
    ∧ ∃ cells : List Nat, cells.length = s.b.listeners.length
        ∧ (watchEvent sem s event).goroutines
            = s.goroutines
              ++ cells.map (fun c => Goroutine.deliver c (s.b.parseFunc s.parseCalls)) := by
  cases sem with
  | perLoop =>
    obtain ⟨h1, h2, h3, h4, h5, -⟩ := rangeShared_spec (s.b.parseFunc s.parseCalls)
      s.vars.length s.b.listeners (s.callParseFunc.2.declareVar).2
    simp only [watchEvent, h, ne_eq, not_true_eq_false, if_false]
    refine ⟨h1, h2, h3, h4, s.b.listeners.map (fun _ => s.vars.length), by simp, ?_⟩
    simpa [List.map_map, Function.comp_def] using h5
  | perIteration =>
    obtain ⟨h1, h2, h3, h4, h5, -⟩ := rangeFresh_spec (s.b.parseFunc s.parseCalls)
      s.b.listeners s.callParseFunc.2
    simp only [watchEvent, h, ne_eq, not_true_eq_false, if_false]
    refine ⟨h1, h2, h3, h4, (List.range s.b.listeners.length).map (fun i => s.vars.length + i),
      by simp, ?_⟩
    simpa [List.map_map, Function.comp_def] using h5

/-- C3: an event whose operation lacks the Write bit is discarded: the state
of the process is unchanged (no render call, no goroutine started, same
listeners); this covers every combination of Create, Remove, Rename and
Chmod.  An event is processed (the render function is called, once) exactly
when `Op & Write == Write`, also when Write comes with other flags. -/
theorem watchEvent_non_write_discarded (sem : LoopVar) (s : State) (event : fsnotify.Event) :
    (event.Op &&& fsnotify.Write ≠ fsnotify.Write → watchEvent sem s event = s)
    ∧ (∀ op ∈ nonWriteOps, ∀ name, watchEvent sem s ⟨name, op⟩ = s)
    ∧ ((watchEvent sem s event).parseCalls = s.parseCalls + 1
        ↔ event.Op &&& fsnotify.Write = fsnotify.Write)
    ∧ (∀ op name, (watchEvent sem s ⟨name, op ||| fsnotify.Write⟩).parseCalls
        = s.parseCalls + 1
        ∧ (watchEvent sem s ⟨name, op ||| fsnotify.Write⟩).goroutines.length
        = s.goroutines.length + s.b.listeners.length)
    ∧ (∀ events : List fsnotify.Event,
        (∀ e ∈ events, e.Op &&& fsnotify.Write ≠ fsnotify.Write) → watch sem s events = s) := by
  have hd : ∀ ev : fsnotify.Event, ev.Op &&& fsnotify.Write ≠ fsnotify.Write →
      watchEvent sem s ev = s := by
    intro ev h
    simp [watchEvent, h]
  refine ⟨hd event, ?_, ?_, ?_, ?_⟩
  rotate_right
  · intro events
    induction events with
    | nil => intro _; rfl
    | cons e es ih =>
      intro hall
      have he := hd e (hall e (List.mem_cons_self _ _))
      have hes := ih fun x hx => hall x (List.mem_cons_of_mem _ hx)
      simpa [watch, he] using hes
  · intro op hop name
    apply hd
    have hall : ∀ o ∈ nonWriteOps, o &&& fsnotify.Write ≠ fsnotify.Write := by decide
    exact hall op hop
  · constructor
    · intro h
      by_contra hne
      rw [hd event hne] at h
      omega
    · intro h
      exact (watchEvent_write_spec sem s event h).2.1
  · intro op name
    obtain ⟨-, h2, -, -, cells, hc, hg⟩ :=
      watchEvent_write_spec sem s ⟨name, op ||| fsnotify.Write⟩ (lor_write_land_write op)
    exact ⟨h2, by simp [hg, hc]⟩

/-- Witness of C3: a Chmod event in Scenario C changes nothing. -/
theorem watchEvent_non_write_discarded_witness :
    watchEvent .perLoop scenarioC ⟨"a.md", fsnotify.Chmod⟩ = scenarioC :=
  (watchEvent_non_write_discarded .perLoop scenarioC ⟨"a.md", fsnotify.Chmod⟩).1 (by decide)

/-- With one loop variable for the whole loop, once the loop of a write
event has finished every delivery goroutine it started targets the last
listener. -/
theorem watchEvent_perLoop_targets (s : State) (event : fsnotify.Event)
    (h : event.Op &&& fsnotify.Write = fsnotify.Write) :
    ((watchEvent .perLoop s event).goroutines.drop s.goroutines.length).map
        (watchEvent .perLoop s event).target
      = s.b.listeners.map (fun _ => s.b.listeners.getLast?) := by
  obtain ⟨-, -, -, -, h5, h6⟩ := rangeShared_spec (s.b.parseFunc s.parseCalls)
    s.vars.length s.b.listeners (s.callParseFunc.2.declareVar).2
  have hw : watchEvent .perLoop s event = rangeShared (s.b.parseFunc s.parseCalls)
      s.vars.length s.b.listeners (s.callParseFunc.2.declareVar).2 := by
    simp only [watchEvent, h, ne_eq, not_true_eq_false, if_false]
    rfl
  rw [hw, h5]
  have hg : (s.callParseFunc.2.declareVar).2.goroutines = s.goroutines := rfl
  rw [hg, List.drop_left, List.map_map]
  apply List.map_congr_left
  intro l hl
  simp only [Function.comp, State.target, h6]
  cases hlast : s.b.listeners.getLast? with
  | none =>
    rw [List.getLast?_eq_none_iff] at hlast
    simp [hlast] at hl
  | some x =>
    simp [State.declareVar, State.callParseFunc, List.get?_eq_getElem?]

/-- With a new loop variable on each iteration, the delivery goroutines
started by a write event target the listeners, each one once, in order. -/
theorem watchEvent_perIteration_targets (s : State) (event : fsnotify.Event)
    (h : event.Op &&& fsnotify.Write = fsnotify.Write) :
    ((watchEvent .perIteration s event).goroutines.drop s.goroutines.length).map
        (watchEvent .perIteration s event).target
      = s.b.listeners.map some := by
  obtain ⟨-, -, -, -, h5, h6⟩ := rangeFresh_spec (s.b.parseFunc s.parseCalls)
    s.b.listeners s.callParseFunc.2
  have hw : watchEvent .perIteration s event = rangeFresh (s.b.parseFunc s.parseCalls)
      s.b.listeners s.callParseFunc.2 := by
    simp only [watchEvent, h, ne_eq, not_true_eq_false, if_false]
    rfl
  rw [hw, h5]
  have hg : s.callParseFunc.2.goroutines = s.goroutines := rfl
  have hv : s.callParseFunc.2.vars = s.vars := rfl
  rw [hg, hv, List.drop_left, List.map_map]
  apply List.ext_getElem
  · simp
  · intro i h1 h2
    simp only [List.length_map, List.length_range] at h1
    simp [State.target, h6, hv, List.get?_eq_getElem?, List.getElem?_append_right, h1]
    rw [List.getElem_append_right (by omega)]
    simp

/-- C4, evaluated in Scenario C with one loop variable for the whole loop
(Go before 1.22): one write event calls the render function once and starts
two deliveries carrying the render result, and when these run after the loop
both send on the channel of the second listener; the first listener is
skipped. -/
theorem watchEvent_perLoop_skips_listener :
    scenarioC.b.listeners = [0, 1]
    ∧ (watchEvent .perLoop scenarioC writeEvent).parseCalls = scenarioC.parseCalls + 1
    ∧ (watchEvent .perLoop scenarioC writeEvent).goroutines.length
        = scenarioC.goroutines.length + 2
    ∧ ((watchEvent .perLoop scenarioC writeEvent).runList [2, 2]).sends
        = [(1, ascii "<h1>A</h1>"), (1, ascii "<h1>A</h1>")]
    ∧ ((watchEvent .perLoop scenarioC writeEvent).runList [2, 2]).goroutines
        = scenarioC.goroutines := by
  decide

/-! ## C5, C6: registration of listeners -/

/-- C5: a failed upgrade leaves the listeners as they are and starts no
session loop (a handshake error changes nothing at all, another error is
logged); a successful upgrade appends exactly one channel, a new one, after
the earlier listeners, and hands that channel to the write loop it starts. -/
theorem ws_listeners (s : State) :
    (∀ msg, ws s (.handshakeError msg) = s)
    ∧ (∀ msg, (ws s (.otherError msg)).b.listeners = s.b.listeners
        ∧ (ws s (.otherError msg)).goroutines = s.goroutines
        ∧ (ws s (.otherError msg)).reading = s.reading
        ∧ (ws s (.otherError msg)).log = s.log ++ [msg])
    ∧ (∀ c, (ws s (.ok c)).b.listeners = s.b.listeners ++ [s.chans]
        ∧ (ws s (.ok c)).goroutines = s.goroutines ++ [.write c s.chans]
        ∧ (ws s (.ok c)).reading = s.reading ++ [c]
        ∧ (ws s (.ok c)).chans = s.chans + 1)
    ∧ ((∀ l ∈ s.b.listeners, l < s.chans) →
        s.chans ∉ s.b.listeners
        ∧ ∀ c, ∀ l ∈ (ws s (.ok c)).b.listeners, l < (ws s (.ok c)).chans) := by
  refine ⟨fun _ => rfl, fun _ => ⟨rfl, rfl, rfl, rfl⟩, fun _ => ⟨rfl, rfl, rfl, rfl⟩, ?_⟩
  intro h
  refine ⟨fun hmem => Nat.lt_irrefl _ (h _ hmem), ?_⟩
  intro c l hl
  have hl2 : l ∈ s.b.listeners ++ [s.chans] := hl
  have hc : (ws s (.ok c)).chans = s.chans + 1 := rfl
  rw [hc]
  rcases List.mem_append.mp hl2 with h1 | h1
  · exact Nat.lt_succ_of_lt (h l h1)
  · rw [List.mem_singleton] at h1
    rw [h1]
    exact Nat.lt_succ_self _

/-- Witness of C5: the second upgrade of Scenario C appends channel 1, which
is not among the listeners before it. -/
theorem ws_listeners_witness :
    (1 : Chan) ∉ (ws scenarioA (.ok 0)).b.listeners
    ∧ ∀ c, ∀ l ∈ (ws (ws scenarioA (.ok 0)) (.ok c)).b.listeners,
        l < (ws (ws scenarioA (.ok 0)) (.ok c)).chans :=
  (ws_listeners (ws scenarioA (.ok 0))).2.2.2 (by decide)

/-- Neither loop of a session touches the listeners when it returns. -/
theorem read_write_keep_listeners (s : State) (c : Conn) (now untilT : Time)
    (ins : List Incoming) (outs : List WriteEvent) :
    (read s c now untilT ins).1.b.listeners = s.b.listeners
    ∧ (write s c outs).1.b.listeners = s.b.listeners := by
  constructor
  · unfold read
    simp only
    split <;> rfl
  · unfold write
    simp only
    split <;> rfl

theorem runGoroutine_b (s : State) (k : Nat) : (s.runGoroutine k).b = s.b := by
  unfold State.runGoroutine
  split
  · simp only
    split <;> rfl
  · rfl

theorem watchEvent_b (sem : LoopVar) (s : State) (event : fsnotify.Event) :
    (watchEvent sem s event).b = s.b := by
  by_cases h : event.Op &&& fsnotify.Write = fsnotify.Write
  · exact (watchEvent_write_spec sem s event h).1
  · simp [watchEvent, h]

/-- No step of the process removes a listener: the listeners at any time
of a run begin with the listeners at its start. -/
theorem run_keeps_listeners (sem : LoopVar) (s : State) (steps : List Step) :
    s.b.listeners <+: (run sem s steps).b.listeners := by
  induction steps generalizing s with
  | nil => exact List.prefix_refl _
  | cons st sts ih =>
    have h1 : s.b.listeners <+: (step sem s st).b.listeners := by
      cases st with
      | upgrade up =>
        cases up with
        | ok c => exact List.prefix_append _ _
        | handshakeError msg => exact List.prefix_refl _
        | otherError msg => exact List.prefix_refl _
      | read c now untilT events =>
        rw [step, (read_write_keep_listeners s c now untilT events []).1]
      | write c events =>
        rw [step, (read_write_keep_listeners s c 0 0 [] events).2]
      | fileEvent event => rw [step, watchEvent_b]
      | run k => rw [step, runGoroutine_b]
    exact h1.trans (ih (step sem s st))

/-- C6, evaluated: after the session on connection 7, owner of channel 0,
has been closed by a read error, its channel is still registered, and the
next write event starts a delivery that sends on it. -/
theorem closed_session_still_targeted (sem : LoopVar) :
    (run sem scenarioA (closedSessionRun.take 1)).goroutines = [.write 7 0]
    ∧ (run sem scenarioA (closedSessionRun.take 2)).closed = [7]
    ∧ (run sem scenarioA (closedSessionRun.take 2)).b.listeners = [0]
    ∧ (run sem scenarioA (closedSessionRun.take 2)).sends = []
    ∧ (run sem scenarioA closedSessionRun).sends = [(0, ascii "<h1>A</h1>")] := by
  cases sem <;> decide

/-! ## C8: the write loop -/

theorem sendOps_eq (e : WriteEvent) :
    sendOps e = [.setWriteDeadline (e.now + writeWait),
      match e.sel with
      | .payload buf => .writeMessage websocket.TextMessage buf
      | .tick => .writeMessage websocket.PingMessage []] := rfl

theorem writeLoop_spec (events : List WriteEvent) :
    writeLoop events
      = (events.takeWhile fun e => !e.err).flatMap sendOps
        ++ (match (events.dropWhile fun e => !e.err).head? with
            | none => []
            | some e => sendOps e ++ [.close, .tickerStop]) := by
  induction events with
  | nil => rfl
  | cons e es ih =>
    rcases e with ⟨sel, now, err⟩
    cases err <;> cases sel <;>
      simp [writeLoop, List.takeWhile, List.dropWhile, sendOps_eq, ih]

theorem close_mem_writeLoop (events : List WriteEvent) :
    ConnOp.close ∈ writeLoop events ↔ events.any (fun e => e.err) = true := by
  induction events with
  | nil => simp [writeLoop]
  | cons e es ih =>
    rcases e with ⟨sel, now, err⟩
    cases err <;> cases sel <;> simp [writeLoop, ih]

/-- C8: the write loop starts a ticker of 54 s and then, for each round up
to and including the first one whose send fails, sets the write deadline to
now + 10 s and sends one frame: a text frame with exactly the payload
received from the channel, or a ping frame with empty payload on a tick, in
the order of the rounds.  After the first failed send, and only then, it
closes the connection and stops the ticker, and sends nothing more. -/
theorem write_frames (s : State) (ws : Conn) (events : List WriteEvent) :
    (write s ws events).2
      = .newTicker (54 * Second)
        :: ((events.takeWhile fun e => !e.err).flatMap sendOps
            ++ (match (events.dropWhile fun e => !e.err).head? with
                | none => []
                | some e => sendOps e ++ [.close, .tickerStop]))
    ∧ (write s ws events).1.closed
        = (if events.any (fun e => e.err) then s.closed ++ [ws] else s.closed)
    ∧ (ConnOp.close ∈ (write s ws events).2 ↔ events.any (fun e => e.err) = true) := by
  have hp : pingPeriod = 54 * Second := by decide
  have hmem : ConnOp.close ∈ ConnOp.newTicker pingPeriod :: writeLoop events
      ↔ events.any (fun e => e.err) = true := by
    rw [List.mem_cons, close_mem_writeLoop]
    simp
  have h2 : (write s ws events).2 = ConnOp.newTicker pingPeriod :: writeLoop events := by
    unfold write
    simp only
    split <;> rfl
  refine ⟨?_, ?_, ?_⟩
  · rw [h2, writeLoop_spec, hp]
  · unfold write
    simp only
    by_cases h : events.any (fun e => e.err) = true
    · rw [if_pos (hmem.mpr h), if_pos h]
    · rw [if_neg (fun hc => h (hmem.mp hc)), if_neg h]
  · rw [h2]; exact hmem

/-! ## C9: the read loop -/

theorem readLoop_deadline (untilT start : Time) (c : ReadSide) (events : List Incoming)
    (hc : c.readDeadline = start + pongWait)
    (hopen : (readLoop untilT c events).closed = false) :
    (readLoop untilT c events).readDeadline = lastPong start events + pongWait
    ∧ (readLoop untilT c events).readLimit = c.readLimit
    ∧ ¬ lastPong start events + pongWait < untilT := by
  induction events generalizing c start with
  | nil =>
    simp only [readLoop] at hopen ⊢
    by_cases h : c.readDeadline < untilT
    · simp [h] at hopen
    · rw [if_neg h]
      exact ⟨hc, rfl, by simpa [lastPong, hc] using h⟩
  | cons e es ih =>
    simp only [readLoop] at hopen ⊢
    by_cases h : c.readDeadline < e.time
    · simp [h] at hopen
    · rw [if_neg h] at hopen ⊢
      cases e with
      | pong t => exact ih t { c with readDeadline := t + pongWait } rfl hopen
      | message t => exact ih start c hc hopen
      | failure t => simp at hopen

theorem readLoop_failure (untilT untilT2 : Time) (c : ReadSide) (pre rest : List Incoming)
    (t : Time) :
    readLoop untilT c (pre ++ .failure t :: rest) = readLoop untilT2 c (pre ++ [.failure t])
    ∧ (readLoop untilT c (pre ++ .failure t :: rest)).closed = true := by
  induction pre generalizing c with
  | nil =>
    simp only [List.nil_append, readLoop]
    split <;> simp
  | cons e es ih =>
    simp only [List.cons_append, readLoop]
    split
    · exact ⟨rfl, rfl⟩
    · cases e with
      | pong t2 => exact ih _
      | message t2 => exact ih _
      | failure t2 => exact ⟨rfl, rfl⟩

theorem readLoop_append_open (u u2 start : Time) (c : ReadSide) (pre more : List Incoming)
    (hc : c.readDeadline = start + pongWait) (hopen : (readLoop u c pre).closed = false) :
    readLoop u2 c (pre ++ more)
      = readLoop u2 { c with readDeadline := lastPong start pre + pongWait } more := by
  induction pre generalizing c start with
  | nil =>
    have hcc : ({ c with readDeadline := lastPong start [] + pongWait } : ReadSide) = c := by
      cases c
      simp only [lastPong] at hc ⊢
      rw [← hc]
    rw [hcc, List.nil_append]
  | cons e es ih =>
    simp only [readLoop] at hopen
    simp only [List.cons_append, readLoop]
    by_cases h : c.readDeadline < e.time
    · simp [h] at hopen
    · rw [if_neg h] at hopen ⊢
      cases e with
      | pong t => exact ih t { c with readDeadline := t + pongWait } rfl hopen
      | message t => exact ih start c hc hopen
      | failure t => simp at hopen

theorem readLoop_nil_eq (u d : Time) (n : Nat) :
    readLoop u { readLimit := n, readDeadline := d, closed := false } []
      = { readLimit := n, readDeadline := d, closed := decide (d < u) } := by
  simp only [readLoop]
  by_cases h : d < u
  · simp [h]
  · simp [h]

/-- C9: while the read loop runs, the read deadline is the time of the last
pong (of the entry into `read` if there was none) plus 60 s and the read
limit is 512.  From a running loop: at any time of observation the loop has
been left, with the connection closed, exactly when that deadline has
passed; an item that comes after the deadline, a pong included, finds the
loop left and changes nothing, whatever follows; a failure ends the loop,
whatever follows; a pong in time moves the deadline to its time plus 60 s
and a message in time leaves it.  The probe period is 54 s, less than the
60 s of the deadline. -/
theorem read_deadline (s : State) (ws : Conn) (now untilT : Time) (events : List Incoming) :
    ((read s ws now untilT events).2.closed = false →
        (read s ws now untilT events).2.readDeadline = lastPong now events + 60 * Second
        ∧ (read s ws now untilT events).2.readLimit = 512
        ∧ (read s ws now untilT events).1.closed = s.closed)
    ∧ (lastPong now events + 60 * Second < untilT →
        (read s ws now untilT events).2.closed = true
        ∧ (read s ws now untilT events).1.closed = s.closed ++ [ws])
    ∧ (∀ t rest untilT2,
        read s ws now untilT (events ++ .failure t :: rest)
          = read s ws now untilT2 (events ++ [.failure t])
        ∧ (read s ws now untilT (events ++ .failure t :: rest)).2.closed = true
        ∧ (read s ws now untilT (events ++ .failure t :: rest)).1.closed = s.closed ++ [ws])
    ∧ pongWait = 60 * Second ∧ pingPeriod = 54 * Second ∧ pingPeriod < pongWait
    ∧ ((read s ws now untilT events).1.closed
        = if (read s ws now untilT events).2.closed = true then s.closed ++ [ws] else s.closed)
    ∧ ((read s ws now untilT events).2.closed = false →
        (∀ u2, (read s ws now u2 events).2
            = { readLimit := 512, readDeadline := lastPong now events + 60 * Second,
                closed := decide (lastPong now events + 60 * Second < u2) })
        ∧ (∀ t rest u2, lastPong now events + 60 * Second < t →
            (read s ws now u2 (events ++ .pong t :: rest)).2
              = { readLimit := 512, readDeadline := lastPong now events + 60 * Second,
                  closed := true }
            ∧ (read s ws now u2 (events ++ .message t :: rest)).2
              = { readLimit := 512, readDeadline := lastPong now events + 60 * Second,
                  closed := true })
        ∧ (∀ t rest u2, (read s ws now u2 (events ++ .failure t :: rest)).2
            = { readLimit := 512, readDeadline := lastPong now events + 60 * Second,
                closed := true })
        ∧ (∀ t u2, t ≤ lastPong now events + 60 * Second →
            (read s ws now u2 (events ++ [.pong t])).2
              = { readLimit := 512, readDeadline := t + 60 * Second,
                  closed := decide (t + 60 * Second < u2) }
            ∧ (read s ws now u2 (events ++ [.message t])).2
              = { readLimit := 512, readDeadline := lastPong now events + 60 * Second,
                  closed := decide (lastPong now events + 60 * Second < u2) })) := by
  have hw : pongWait = 60 * Second := rfl
  have h1 : ∀ (u : Time) (evs : List Incoming), (read s ws now u evs).2
      = readLoop u { readLimit := 512, readDeadline := now + pongWait, closed := false } evs := by
    intro u evs
    unfold read
    simp only
    split <;> rfl
  have h2 : ∀ (u : Time) (evs : List Incoming), (read s ws now u evs).2.closed = true →
      (read s ws now u evs).1.closed = s.closed ++ [ws] := by
    intro u evs
    rw [h1]
    intro h
    unfold read
    simp only
    rw [if_pos h]
  have h3 : ∀ (u : Time) (evs : List Incoming), (read s ws now u evs).2.closed = false →
      (read s ws now u evs).1.closed = s.closed := by
    intro u evs
    rw [h1]
    intro h
    unfold read
    simp only
    rw [if_neg (by simp [h])]
  refine ⟨?_, ?_, ?_, hw, by decide, by decide, ?_, ?_⟩
  · intro hopen
    have hopen2 := hopen
    rw [h1] at hopen2
    obtain ⟨hd, hl, -⟩ := readLoop_deadline untilT now _ events rfl hopen2
    refine ⟨?_, ?_, h3 _ _ hopen⟩
    · rw [h1, hd, hw]
    · rw [h1, hl]
  · intro hlate
    have hcl : (read s ws now untilT events).2.closed = true := by
      by_contra hne
      have hopen : (read s ws now untilT events).2.closed = false := by
        simpa using hne
      have hopen2 := hopen
      rw [h1] at hopen2
      obtain ⟨-, -, hno⟩ := readLoop_deadline untilT now _ events rfl hopen2
      rw [hw] at hno
      exact hno hlate
    exact ⟨hcl, h2 _ _ hcl⟩
  · intro t rest untilT2
    obtain ⟨he, hcl⟩ := readLoop_failure untilT untilT2
      { readLimit := 512, readDeadline := now + pongWait, closed := false } events rest t
    have hcl2 : (read s ws now untilT (events ++ .failure t :: rest)).2.closed = true := by
      rw [h1]; exact hcl
    refine ⟨?_, hcl2, h2 _ _ hcl2⟩
    unfold read
    simp only
    rw [he]
  · by_cases hcl : (read s ws now untilT events).2.closed = true
    · rw [if_pos hcl]; exact h2 _ _ hcl
    · rw [if_neg hcl]; exact h3 _ _ (by simpa using hcl)
  · intro hopen
    rw [h1] at hopen
    have happ : ∀ (u2 : Time) (more : List Incoming),
        (read s ws now u2 (events ++ more)).2
          = readLoop u2 { readLimit := 512, readDeadline := lastPong now events + 60 * Second,
                          closed := false } more := by
      intro u2 more
      rw [h1, readLoop_append_open untilT u2 now _ events more rfl hopen]
      rfl
    refine ⟨?_, ?_, ?_, ?_⟩
    · intro u2
      have := happ u2 []
      rw [List.append_nil] at this
      rw [this, readLoop_nil_eq]
    · intro t rest u2 hlate
      constructor
      · rw [happ]
        simp [readLoop, Incoming.time, hlate]
      · rw [happ]
        simp [readLoop, Incoming.time, hlate]
    · intro t rest u2
      rw [happ]
      simp only [readLoop]
      split <;> rfl
    · intro t u2 hle
      have hnot : ¬ lastPong now events + 60 * Second < t := not_lt.mpr hle
      constructor
      · rw [happ]
        simp only [readLoop, Incoming.time, if_neg hnot]
        rw [hw]
        exact readLoop_nil_eq u2 (t + 60 * Second) 512
      · rw [happ]
        simp only [readLoop, Incoming.time, if_neg hnot]
        exact readLoop_nil_eq u2 (lastPong now events + 60 * Second) 512

/-- Witness of C9: a session entered at time 0 that receives pongs at 54 s
and 108 s is open at 150 s with read deadline 168 s and closed at 200 s; a
pong that comes at 200 s, after that deadline, finds it closed with the
deadline still at 168 s; and a session whose first pong comes at 100 s is
closed, with the deadline still at 60 s, when observed at 120 s. -/
theorem read_deadline_witness :
    ((read scenarioA 7 0 (150 * Second) answeredProbes).2.readDeadline
        = lastPong 0 answeredProbes + 60 * Second
      ∧ (read scenarioA 7 0 (150 * Second) answeredProbes).2.readLimit = 512
      ∧ (read scenarioA 7 0 (150 * Second) answeredProbes).1.closed = scenarioA.closed)
    ∧ (read scenarioA 7 0 (200 * Second) answeredProbes).2.closed = true
    ∧ (read scenarioA 7 0 (250 * Second) (answeredProbes ++ [.pong (200 * Second)])).2
        = { readLimit := 512, readDeadline := 168 * Second, closed := true }
    ∧ (read scenarioA 7 0 (120 * Second) ([] ++ [.pong (100 * Second)])).2
        = { readLimit := 512, readDeadline := 60 * Second, closed := true } :=
  ⟨(read_deadline scenarioA 7 0 (150 * Second) answeredProbes).1 (by decide),
   ((read_deadline scenarioA 7 0 (200 * Second) answeredProbes).2.1 (by decide)).1,
   (((read_deadline scenarioA 7 0 (150 * Second) answeredProbes).2.2.2.2.2.2.2
      (by decide)).2.1 (200 * Second) [] (250 * Second) (by decide)).1,
   (((read_deadline scenarioA 7 0 0 []).2.2.2.2.2.2.2
      (by decide)).2.1 (100 * Second) [] (120 * Second) (by decide)).1⟩

/-! ## C7: selection of the input -/

/-- The input that `main` opens does not depend on the positional
arguments. -/
theorem openInput_ignores_args (f : Flags) (args : List String) (canOpen : String → Bool)
    (stdinMode : Option Nat) :
    openInput { f with args := args } canOpen stdinMode = openInput f canOpen stdinMode := rfl

/-- C7, evaluated on `mark README.md`: with `-i` absent and one positional
argument, `main` reads stdin when stdin is a pipe and exits with the usage
text when stdin is a terminal, where the usage text names the file
`README.md` as the input; with `-i` the named file is read. -/
theorem openInput_last_argument_unused :
    usageInput markReadme = .file "README.md"
    ∧ openInput markReadme (fun _ => true) (some 0) = .stdin
    ∧ openInput markReadme (fun _ => true) (some ModeCharDevice) = .usageAndExit ""
    ∧ openInput { markReadme with input := "a.md" } (fun _ => true) (some 0) = .file "a.md" := by
  decide

/-! ## C10: collection of the input -/

theorem splitDelim_none (delim : Nat) (xs : Bytes) (h : splitDelim delim xs = none) :
    delim ∉ xs := by
  induction xs with
  | nil => simp
  | cons c cs ih =>
    by_cases hc : c = delim
    · simp [splitDelim, hc] at h
    · simp only [splitDelim, hc, if_false, Option.map_eq_none'] at h
      simp only [List.mem_cons, not_or]
      exact ⟨fun e => hc e.symm, ih h⟩

theorem splitDelim_some (delim : Nat) (xs line rest : Bytes)
    (h : splitDelim delim xs = some (line, rest)) :
    xs = line ++ rest ∧ line.getLast? = some delim ∧ rest.length < xs.length := by
  induction xs generalizing line with
  | nil => simp [splitDelim] at h
  | cons c cs ih =>
    by_cases hc : c = delim
    · simp only [splitDelim, hc, if_true, Option.some.injEq, Prod.mk.injEq] at h
      obtain ⟨h1, h2⟩ := h
      subst h1 h2
      simp [hc]
    · simp only [splitDelim, hc, if_false, Option.map_eq_some', Prod.mk.injEq] at h
      obtain ⟨⟨l, r⟩, hlr, h1, h2⟩ := h
      simp only at h1 h2
      subst h1 h2
      obtain ⟨e1, e2, e3⟩ := ih l hlr
      refine ⟨by rw [e1]; rfl, ?_, by simp; omega⟩
      cases l with
      | nil => simp at e2
      | cons a as => rw [List.getLast?_cons_cons]; exact e2

theorem collect_spec (fuel : Nat) (xs data : Bytes) (h : xs.length < fuel) :
    ∃ d rest, collect fuel ⟨xs, false⟩ data = some (.ok (data ++ d))
      ∧ xs = d ++ rest ∧ 10 ∉ rest ∧ (d = [] ∨ d.getLast? = some 10) := by
  induction fuel generalizing xs data with
  | zero => omega
  | succ n ih =>
    cases hs : splitDelim 10 xs with
    | none =>
      refine ⟨[], xs, ?_, rfl, splitDelim_none 10 xs hs, Or.inl rfl⟩
      simp [collect, Reader.ReadString, hs]
    | some lr =>
      obtain ⟨line, rest⟩ := lr
      obtain ⟨e1, e2, e3⟩ := splitDelim_some 10 xs line rest hs
      obtain ⟨d, r, hd, hx, hr, hl⟩ := ih rest (data ++ line) (by omega)
      refine ⟨line ++ d, r, ?_, by rw [e1, hx, List.append_assoc], hr, Or.inr ?_⟩
      · simp [collect, Reader.ReadString, hs, hd]
      · rcases hl with hl | hl
        · rw [hl, List.append_nil]; exact e2
        · cases d with
          | nil => simp at hl
          | cons a as => rw [List.getLast?_append_cons]; exact hl

theorem rdropWhile_of_split (xs d rest : Bytes) (hx : xs = d ++ rest) (hr : 10 ∉ rest)
    (hd : d = [] ∨ d.getLast? = some 10) :
    xs.rdropWhile (fun c => c != 10) = d := by
  subst hx
  induction rest using List.reverseRecOn with
  | nil =>
    rw [List.append_nil]
    rcases hd with hd | hd
    · rw [hd]; rfl
    · obtain ⟨ys, hys⟩ := List.getLast?_eq_some_iff.mp hd
      rw [hys]
      exact List.rdropWhile_concat_neg _ _ _ (by simp)
  | append_singleton r a ih =>
    have ha : a ≠ 10 := fun e => hr (by simp [e])
    have hr2 : 10 ∉ r := fun hm => hr (List.mem_append_left _ hm)
    rw [← List.append_assoc, List.rdropWhile_concat_pos _ _ _ (by simpa using ha)]
    exact ih hr2

theorem prefix_of_split (p d rest : Bytes) (hp : p <+: d ++ rest) (hl : p.getLast? = some 10)
    (hr : 10 ∉ rest) : p <+: d := by
  rcases List.prefix_or_prefix_of_prefix hp (List.prefix_append d rest) with h | h
  · exact h
  · obtain ⟨t, ht⟩ := h
    subst ht
    have ht : t <+: rest := (List.prefix_append_right_inj d).mp hp
    cases t with
    | nil => simp
    | cons a as =>
      exfalso
      rw [List.getLast?_append_of_ne_nil _ (List.cons_ne_nil a as)] at hl
      exact hr (ht.subset (List.mem_of_getLast?_eq_some hl))

/-- C10: on an input read without an error other than EOF the loop of `main`
ends (any fuel above the length of the input is enough) and collects the
input without the bytes after its last newline: a prefix of the input that
is empty or ends in a newline, that every prefix of the input ending in a
newline is a prefix of, and that is the whole input exactly when the input
is empty or ends in a newline. -/
theorem collect_keeps_newline_lines (input : Bytes) (fuel : Nat)
    (h : input.length < fuel) :
    collect fuel ⟨input, false⟩ [] = some (.ok (input.rdropWhile fun c => c != 10))
    ∧ (input.rdropWhile fun c => c != 10) <+: input
    ∧ ((input.rdropWhile fun c => c != 10) = []
        ∨ (input.rdropWhile fun c => c != 10).getLast? = some 10)
    ∧ (∀ p, p <+: input → p.getLast? = some 10 → p <+: input.rdropWhile fun c => c != 10)
    ∧ ((input.rdropWhile fun c => c != 10) = input
        ↔ input = [] ∨ input.getLast? = some 10)
    ∧ (10 ∉ input → (input.rdropWhile fun c => c != 10) = []) := by
  obtain ⟨d, rest, hc, hx, hr, hd⟩ := collect_spec fuel input [] h
  have hrd := rdropWhile_of_split input d rest hx hr hd
  rw [hrd]
  refine ⟨by simpa using hc, ⟨rest, hx.symm⟩, hd, ?_, ?_, ?_⟩
  · intro p hp hl
    rw [hx] at hp
    exact prefix_of_split p d rest hp hl hr
  · constructor
    · intro e
      rw [← e]
      exact hd
    · intro hi
      rcases hi with hi | hi
      · rw [hi] at hx
        have := List.append_eq_nil.mp hx.symm
        rw [hi, this.1]
      · have hpre : input <+: d := by
          apply prefix_of_split input d rest _ hi hr
          rw [← hx]
        exact List.IsPrefix.eq_of_length_le ⟨rest, hx.symm⟩ hpre.length_le
  · intro hn
    rcases hd with hd | hd
    · exact hd
    · exfalso
      apply hn
      rw [hx]
      exact List.mem_append_left _ (List.mem_of_getLast?_eq_some hd)

/-- Witness of C10: from `a\nbc\nd` the loop collects `a\nbc\n`. -/
theorem collect_keeps_newline_lines_witness :
    collect 7 ⟨[97, 10, 98, 99, 10, 100], false⟩ [] = some (.ok [97, 10, 98, 99, 10]) :=
  (collect_keeps_newline_lines [97, 10, 98, 99, 10, 100] 7 (by decide)).1

end Mark
